import Mathlib

/-!
Verification of the drone path / observing-area viewer (src/main.py).

The development shallowly embeds the core of the program:
* `pyround` is the Python 3 builtin round function on a real value (round half to even),
  `pytrunc` is the Python conversion int applied to a float (truncation toward zero).
* Coordinates and pixel sizes are modelled as exact rationals (`ℚ`); the
  float arithmetic of the program is treated as exact real arithmetic.
* Trigonometric library calls (`math.cos`, `math.sin`, `math.atan2` composed
  with `math.degrees`) are modelled as an abstract `TrigModel` parameter: no
  claim depends on the numeric values of the trig functions, only on how the
  program combines them, and the sampling theorems quantify over the
  cosine/sine values themselves.
* The `ImageCanvas` widget state is the record `CanvasState`; its event
  handlers and public methods become pure state-transition functions, and
  `Reachable` is the set of states reachable through them from `__init__`.
-/

namespace DroneSim

/-- Python 3 builtin `round` on an exact value: round to nearest, ties to the
even integer. -/
def pyround (x : ℚ) : ℤ :=
  if Int.fract x = 1/2 then (if ⌊x⌋ % 2 = 0 then ⌊x⌋ else ⌊x⌋ + 1) else round x

/-- Python `int(...)` applied to a float: truncation toward zero. -/
def pytrunc (x : ℚ) : ℤ :=
  if 0 ≤ x then ⌊x⌋ else ⌈x⌉

/-- Modelled from the spec: round half away from zero, the rounding mode the
design notes of the spec attribute to the source (compared against `pyround`,
which is what the source actually calls). -/
def roundHalfAway (x : ℚ) : ℤ :=
  if 0 ≤ x then ⌊x + 1/2⌋ else ⌈x - 1/2⌉

/-- A point on the canvas (`QPointF`): exact-rational coordinates. -/
structure Point where
  x : ℚ
  y : ℚ
deriving DecidableEq

/-- The loaded source raster (`QImage`): dimensions plus a pixel accessor
returning the 32-bit ARGB color value (`QImage.pixel`). -/
structure Raster where
  width : ℕ
  height : ℕ
  pixel : ℕ → ℕ → ℕ

/-- The sampled camera frame (`QImage(w, h, Format_ARGB32)`). -/
structure Frame where
  width : ℕ
  height : ℕ
  pix : ℕ → ℕ → ℕ

/-- Fully opaque black, `QColor(0, 0, 0)` as ARGB32: the background fill of
the sampled frame. -/
def blackARGB : ℕ := 0xFF000000

/-- Pixel write, as in QImage.setPixel x y c. -/
def Frame.setPixel (f : Frame) (x y : ℕ) (c : ℕ) : Frame :=
  { f with pix := fun a b => if a = x ∧ b = y then c else f.pix a b }

/-- Local offset of destination coordinate `k` inside a footprint of size `n`:
`k - n / 2.0` in the source. -/
def localOff (n k : ℕ) : ℚ := (k : ℚ) - (n : ℚ) / 2

/-- Source x-coordinate sampled for destination pixel `(x, y)`:
`gx = center.x + cos_t * lx - sin_t * ly` rounded with Python `round`. -/
def ixOf (cx ct sn : ℚ) (w h x y : ℕ) : ℤ :=
  pyround (cx + ct * localOff w x - sn * localOff h y)

/-- Source y-coordinate sampled for destination pixel `(x, y)`:
`gy = center.y + sin_t * lx + cos_t * ly` rounded with Python `round`. -/
def iyOf (cy ct sn : ℚ) (w h x y : ℕ) : ℤ :=
  pyround (cy + sn * localOff w x + ct * localOff h y)

/-- Bounds check `0 <= ix < img_w and 0 <= iy < img_h` of the sampling loop. -/
def InB (img : Raster) (ix iy : ℤ) : Prop :=
  0 ≤ ix ∧ ix < (img.width : ℤ) ∧ 0 ≤ iy ∧ iy < (img.height : ℤ)

instance (img : Raster) (ix iy : ℤ) : Decidable (InB img ix iy) :=
  inferInstanceAs (Decidable (0 ≤ ix ∧ ix < (img.width : ℤ) ∧ 0 ≤ iy ∧ iy < (img.height : ℤ)))

/-- Body of the sampling loop of `_emit_crop` for one destination pixel:
copy the nearest source pixel when the rounded coordinate is in bounds,
otherwise leave the (black) frame untouched. -/
def writeBody (img : Raster) (cx cy ct sn : ℚ) (w h : ℕ) (f : Frame) (x y : ℕ) : Frame :=
  if InB img (ixOf cx ct sn w h x y) (iyOf cy ct sn w h x y) then
    f.setPixel x y (img.pixel (ixOf cx ct sn w h x y).toNat (iyOf cy ct sn w h x y).toNat)
  else f

/-- The nested sampling loop of `_emit_crop`: a `w × h` frame filled with
opaque black, then every destination pixel visited once in row-major order. -/
def emitCropFrame (img : Raster) (cx cy ct sn : ℚ) (w h : ℕ) : Frame :=
  (List.range h).foldl
    (fun f y => (List.range w).foldl (fun g x => writeBody img cx cy ct sn w h g x y) f)
    { width := w, height := h, pix := fun _ _ => blackARGB }

theorem setPixel_pix (f : Frame) (x y c a b : ℕ) :
    (f.setPixel x y c).pix a b = if a = x ∧ b = y then c else f.pix a b := rfl

theorem writeBody_pix_other (img : Raster) (cx cy ct sn : ℚ) (w h : ℕ)
    (f : Frame) (x y a b : ℕ) (hne : ¬(a = x ∧ b = y)) :
    (writeBody img cx cy ct sn w h f x y).pix a b = f.pix a b := by
  unfold writeBody
  split
  · rw [setPixel_pix, if_neg hne]
  · rfl

theorem writeBody_pix_self (img : Raster) (cx cy ct sn : ℚ) (w h : ℕ)
    (f : Frame) (x y : ℕ) :
    (writeBody img cx cy ct sn w h f x y).pix x y =
      if InB img (ixOf cx ct sn w h x y) (iyOf cy ct sn w h x y) then
        img.pixel (ixOf cx ct sn w h x y).toNat (iyOf cy ct sn w h x y).toNat
      else f.pix x y := by
  unfold writeBody
  split
  · rw [setPixel_pix, if_pos ⟨rfl, rfl⟩]
  · rfl

theorem row_pix (img : Raster) (cx cy ct sn : ℚ) (w h y : ℕ) (xs : List ℕ)
    (f : Frame) (a b : ℕ) :
    ((xs.foldl (fun g x => writeBody img cx cy ct sn w h g x y) f)).pix a b =
      if b = y ∧ a ∈ xs ∧ InB img (ixOf cx ct sn w h a y) (iyOf cy ct sn w h a y)
      then img.pixel (ixOf cx ct sn w h a y).toNat (iyOf cy ct sn w h a y).toNat
      else f.pix a b := by
  induction xs generalizing f with
  | nil => simp
  | cons x xs ih =>
    rw [List.foldl_cons, ih]
    by_cases hb : b = y
    · subst hb
      by_cases hmem : a ∈ xs
      · by_cases hin : InB img (ixOf cx ct sn w h a b) (iyOf cy ct sn w h a b)
        · simp [hmem, hin]
        · have hwb : (writeBody img cx cy ct sn w h f x b).pix a b = f.pix a b := by
            by_cases hax : a = x
            · subst hax
              rw [writeBody_pix_self, if_neg hin]
            · exact writeBody_pix_other img cx cy ct sn w h f x b a b (by simp [hax])
          simp [hmem, hin, hwb]
      · by_cases hax : a = x
        · subst hax
          rw [writeBody_pix_self]
          by_cases hin : InB img (ixOf cx ct sn w h a b) (iyOf cy ct sn w h a b)
          · simp [hmem, hin]
          · simp [hmem, hin]
        · rw [writeBody_pix_other img cx cy ct sn w h f x b a b (by simp [hax])]
          simp [hmem, hax]
    · rw [writeBody_pix_other img cx cy ct sn w h f x y a b (by simp [hb])]
      simp [hb]

theorem rows_pix (img : Raster) (cx cy ct sn : ℚ) (w h : ℕ) (ys : List ℕ)
    (f : Frame) (a b : ℕ) :
    ((ys.foldl
        (fun g y => (List.range w).foldl (fun g2 x => writeBody img cx cy ct sn w h g2 x y) g)
        f)).pix a b =
      if b ∈ ys ∧ a < w ∧ InB img (ixOf cx ct sn w h a b) (iyOf cy ct sn w h a b)
      then img.pixel (ixOf cx ct sn w h a b).toNat (iyOf cy ct sn w h a b).toNat
      else f.pix a b := by
  induction ys generalizing f with
  | nil => simp
  | cons y ys ih =>
    rw [List.foldl_cons, ih]
    by_cases h1 : b ∈ ys
    · have hrow : ¬(a < w ∧ InB img (ixOf cx ct sn w h a b) (iyOf cy ct sn w h a b)) →
          ((List.range w).foldl (fun g2 x => writeBody img cx cy ct sn w h g2 x y) f).pix a b =
            f.pix a b := by
        intro hno
        rw [row_pix]
        rw [if_neg]
        intro hcon
        obtain ⟨hby, hm, hi⟩ := hcon
        subst hby
        exact hno ⟨List.mem_range.mp hm, hi⟩
      by_cases hin : a < w ∧ InB img (ixOf cx ct sn w h a b) (iyOf cy ct sn w h a b)
      · simp [h1, hin]
      · simp [h1, hin, hrow hin]
    · by_cases h2 : b = y
      · subst h2
        rw [row_pix]
        simp [h1, List.mem_range]
      · rw [row_pix]
        simp [h1, h2]

theorem row_width (img : Raster) (cx cy ct sn : ℚ) (w h y : ℕ) (xs : List ℕ) (f : Frame) :
    ((xs.foldl (fun g x => writeBody img cx cy ct sn w h g x y) f)).width = f.width := by
  induction xs generalizing f with
  | nil => rfl
  | cons x xs ih =>
    rw [List.foldl_cons, ih]
    unfold writeBody
    split <;> rfl

theorem rows_width (img : Raster) (cx cy ct sn : ℚ) (w h : ℕ) (ys : List ℕ) (f : Frame) :
    ((ys.foldl
        (fun g y => (List.range w).foldl (fun g2 x => writeBody img cx cy ct sn w h g2 x y) g)
        f)).width = f.width := by
  induction ys generalizing f with
  | nil => rfl
  | cons y ys ih => rw [List.foldl_cons, ih, row_width]

theorem row_height (img : Raster) (cx cy ct sn : ℚ) (w h y : ℕ) (xs : List ℕ) (f : Frame) :
    ((xs.foldl (fun g x => writeBody img cx cy ct sn w h g x y) f)).height = f.height := by
  induction xs generalizing f with
  | nil => rfl
  | cons x xs ih =>
    rw [List.foldl_cons, ih]
    unfold writeBody
    split <;> rfl

theorem rows_height (img : Raster) (cx cy ct sn : ℚ) (w h : ℕ) (ys : List ℕ) (f : Frame) :
    ((ys.foldl
        (fun g y => (List.range w).foldl (fun g2 x => writeBody img cx cy ct sn w h g2 x y) g)
        f)).height = f.height := by
  induction ys generalizing f with
  | nil => rfl
  | cons y ys ih => rw [List.foldl_cons, ih, row_height]

/-- C1: for every source raster, center point, cosine/sine pair of a heading
angle, and footprint size of integer dimensions at least 2, the sampling loop
of `_emit_crop` produces a w-by-h frame in which every destination pixel
`(x, y)` with local offset `lx = x - w/2`, `ly = y - h/2` equals the source
pixel at the rounded coordinates
`(round(cx + ct*lx - sn*ly), round(cy + sn*lx + ct*ly))` when those rounded
coordinates lie within the raster bounds, and equals fully-opaque black
otherwise. The cosine and sine of the heading are quantified as the values
`ct` and `sn`, exactly as the loop consumes them. -/
theorem emitCropFrame_pix_spec (img : Raster) (cx cy ct sn : ℚ) (w h : ℕ)
    (hw : 2 ≤ w) (hh : 2 ≤ h) :
    (emitCropFrame img cx cy ct sn w h).width = w ∧
    (emitCropFrame img cx cy ct sn w h).height = h ∧
    ∀ x y : ℕ, x < w → y < h →
      (emitCropFrame img cx cy ct sn w h).pix x y =
        if InB img
            (pyround (cx + ct * ((x : ℚ) - (w : ℚ)/2) - sn * ((y : ℚ) - (h : ℚ)/2)))
            (pyround (cy + sn * ((x : ℚ) - (w : ℚ)/2) + ct * ((y : ℚ) - (h : ℚ)/2)))
        then img.pixel
            (pyround (cx + ct * ((x : ℚ) - (w : ℚ)/2) - sn * ((y : ℚ) - (h : ℚ)/2))).toNat
            (pyround (cy + sn * ((x : ℚ) - (w : ℚ)/2) + ct * ((y : ℚ) - (h : ℚ)/2))).toNat
        else blackARGB := by
  refine ⟨?_, ?_, ?_⟩
  · unfold emitCropFrame
    rw [rows_width]
  · unfold emitCropFrame
    rw [rows_height]
  · intro x y hx hy
    show (emitCropFrame img cx cy ct sn w h).pix x y =
      if InB img (ixOf cx ct sn w h x y) (iyOf cy ct sn w h x y)
      then img.pixel (ixOf cx ct sn w h x y).toNat (iyOf cy ct sn w h x y).toNat
      else blackARGB
    unfold emitCropFrame
    rw [rows_pix]
    by_cases hin : InB img (ixOf cx ct sn w h x y) (iyOf cy ct sn w h x y)
    · simp [hin, hx, List.mem_range.mpr hy]
    · simp [hin]

/-- C4 counterexample: the sampling routine rounds 5/2 (fractional part
exactly one half) to 2, whereas round-half-away-from-zero would give 3:
the builtin round of Python, used by the source, rounds ties to even. -/
theorem pyround_half_counterexample :
    Int.fract ((5 : ℚ)/2) = 1/2 ∧ pyround ((5 : ℚ)/2) = 2 ∧
    roundHalfAway ((5 : ℚ)/2) = 3 ∧
    pyround ((5 : ℚ)/2) ≠ roundHalfAway ((5 : ℚ)/2) := by
  have hfl : ⌊(5 : ℚ)/2⌋ = 2 := by norm_num
  have hf : Int.fract ((5 : ℚ)/2) = 1/2 := by
    rw [← Int.self_sub_floor, hfl]
    norm_num
  have h2 : pyround ((5 : ℚ)/2) = 2 := by
    unfold pyround
    rw [if_pos hf, hfl]
    norm_num
  have h3 : roundHalfAway ((5 : ℚ)/2) = 3 := by
    unfold roundHalfAway
    rw [if_pos (by norm_num)]
    norm_num
  refine ⟨hf, h2, h3, ?_⟩
  rw [h2, h3]
  decide

/-- C4 amended: for every sampled source coordinate whose fractional part is
exactly one half, the rounding used by the sampling routine (the builtin
round of Python) maps it to the nearest even integer: the result is even and
at distance exactly one half from the input. -/
theorem pyround_half_to_even (x : ℚ) (h : Int.fract x = 1/2) :
    Even (pyround x) ∧ |(pyround x : ℚ) - x| = 1/2 := by
  have hsub : (⌊x⌋ : ℚ) - x = -(1/2) := by
    have := Int.self_sub_floor x
    rw [h] at this
    linarith
  unfold pyround
  rw [if_pos h]
  by_cases he : ⌊x⌋ % 2 = 0
  · rw [if_pos he]
    refine ⟨Int.even_iff.mpr he, ?_⟩
    rw [hsub]
    norm_num
  · rw [if_neg he]
    refine ⟨Int.even_iff.mpr (by omega), ?_⟩
    have : ((⌊x⌋ + 1 : ℤ) : ℚ) - x = 1/2 := by
      push_cast
      linarith
    rw [this]
    norm_num

theorem pyround_half_to_even_witness :
    Even (pyround ((5 : ℚ)/2)) ∧ |(pyround ((5 : ℚ)/2) : ℚ) - (5 : ℚ)/2| = 1/2 :=
  pyround_half_to_even ((5 : ℚ)/2)
    (by rw [← Int.self_sub_floor]; norm_num)

/-- Tick interval computed by the UI layer in `start_play`:
`interval_ms = int(1000.0 / freq)`. -/
def computeIntervalMs (freq : ℚ) : ℤ := pytrunc (1000 / freq)

/-- C3 counterexample: at the validated frequency 3/5 Hz the UI computes
interval 1666 ms, while rounding the quotient 5000/3 to the nearest integer
gives 1667: the code truncates instead of rounding. -/
theorem computeIntervalMs_counterexample :
    computeIntervalMs (3/5) = 1666 ∧ round ((1000 : ℚ) / (3/5)) = 1667 ∧
    computeIntervalMs (3/5) ≠ round ((1000 : ℚ) / (3/5)) := by
  have h1 : computeIntervalMs (3/5) = 1666 := by
    unfold computeIntervalMs pytrunc
    rw [if_pos (by norm_num)]
    norm_num
  have h2 : round ((1000 : ℚ) / (3/5)) = 1667 := by
    rw [round_eq]
    norm_num
  refine ⟨h1, h2, ?_⟩
  rw [h1, h2]
  decide

/-- C3 amended: for every validated frequency f > 0, the UI layer computes
the tick interval passed to the animation driver as the quotient 1000/f
truncated toward zero, i.e. its floor. -/
theorem computeIntervalMs_floor (freq : ℚ) (h : 0 < freq) :
    computeIntervalMs freq = ⌊(1000 : ℚ) / freq⌋ := by
  unfold computeIntervalMs pytrunc
  rw [if_pos (le_of_lt (div_pos (by norm_num) h))]

theorem computeIntervalMs_floor_witness :
    computeIntervalMs 2 = ⌊(1000 : ℚ) / 2⌋ :=
  computeIntervalMs_floor 2 (by norm_num)

/-- Abstract model of the trigonometric library calls of the source:
`cosOfDeg d` is `math.cos(math.radians(d))`, `sinOfDeg d` is
`math.sin(math.radians(d))`, and `atan2deg dy dx` is
`math.degrees(math.atan2(dy, dx))`. The claims quantify over headings, so no
property of these functions beyond being functions is used. -/
structure TrigModel where
  cosOfDeg : ℚ → ℚ
  sinOfDeg : ℚ → ℚ
  atan2deg : ℚ → ℚ → ℚ

/-- The method `_heading_angle_deg(idx)`: heading of the path at index
`idx`, from the segment to the forward neighbor, or the backward segment at
the end of the path; 0.0 for degenerate inputs. List reads are modelled with a
default that is never consulted at the call sites (which clamp the index
under a `hasPath` guard). -/
def heading_angle_deg (tm : TrigModel) (pts : List Point) (idx : ℕ) : ℚ :=
  if pts.length < 2 then 0
  else
    let p1 := if idx < pts.length - 1 then pts.getD idx ⟨0, 0⟩ else pts.getD (idx - 1) ⟨0, 0⟩
    let p2 := if idx < pts.length - 1 then pts.getD (idx + 1) ⟨0, 0⟩ else pts.getD idx ⟨0, 0⟩
    let dx := p2.x - p1.x
    let dy := p2.y - p1.y
    if dx = 0 ∧ dy = 0 then 0 else tm.atan2deg dy dx

/-- C5: for every path of length n >= 2 whose last two points are distinct,
the heading at the final index equals the heading at index n-2: the end of
the path uses the backward-looking segment, so the heading of the last segment is
preserved. -/
theorem heading_last_eq (tm : TrigModel) (pts : List Point)
    (h2 : 2 ≤ pts.length)
    (hne : pts.getD (pts.length - 1) ⟨0, 0⟩ ≠ pts.getD (pts.length - 2) ⟨0, 0⟩) :
    heading_angle_deg tm pts (pts.length - 1) = heading_angle_deg tm pts (pts.length - 2) := by
  unfold heading_angle_deg
  have hlen : ¬(pts.length < 2) := by omega
  have hn1 : ¬(pts.length - 1 < pts.length - 1) := lt_irrefl _
  have hn2 : pts.length - 2 < pts.length - 1 := by omega
  have hadd : pts.length - 2 + 1 = pts.length - 1 := by omega
  have hsub : pts.length - 1 - 1 = pts.length - 2 := by omega
  rw [if_neg hlen, if_neg hlen]
  simp only [if_neg hn1, if_pos hn2, hadd, hsub]

def tm0 : TrigModel :=
  { cosOfDeg := fun _ => 1, sinOfDeg := fun _ => 0, atan2deg := fun _ _ => 0 }

def demoPath : List Point := [⟨0, 0⟩, ⟨1, 0⟩]

theorem heading_last_eq_witness :
    heading_angle_deg tm0 demoPath 1 = heading_angle_deg tm0 demoPath 0 :=
  heading_last_eq tm0 demoPath (by decide) (by decide)

/-- Mouse buttons of the event passed to the mouse handlers. -/
inductive MButton where
  | left
  | right
  | middle
deriving DecidableEq

/-- State of the `ImageCanvas` widget. `image` merges the `image` pixmap and
its `image_qimage` pixel-accessible copy, which the source keeps in sync
(`setImage` always assigns both from the same pixmap). `timerActive` and
`timerInterval` model the `QTimer`. -/
structure CanvasState where
  image : Option Raster
  path_points : List Point
  drawing : Bool
  drone_index : ℕ
  playing : Bool
  rect_width_px : ℚ
  rect_height_px : ℚ
  timerActive : Bool
  timerInterval : ℤ

/-- The `__init__` state of the widget. -/
def initState : CanvasState :=
  { image := none, path_points := [], drawing := false, drone_index := 0,
    playing := false, rect_width_px := 80, rect_height_px := 80,
    timerActive := false, timerInterval := 0 }

def hasImage (s : CanvasState) : Bool := s.image.isSome

def hasPath (s : CanvasState) : Bool := decide (1 < s.path_points.length)

/-- The `_point_in_image` helper. -/
def point_in_image (s : CanvasState) (p : Point) : Bool :=
  match s.image with
  | none => false
  | some img =>
      decide (0 ≤ p.x ∧ p.x < (img.width : ℚ) ∧ 0 ≤ p.y ∧ p.y < (img.height : ℚ))

/-- Method setImage: replace the raster, clear path, drawing, playing and index.
The timer itself is not stopped here. -/
def setImage (s : CanvasState) (img : Raster) : CanvasState :=
  { s with image := some img, path_points := [], drawing := false,
           playing := false, drone_index := 0 }

/-- Method setRectangleSizePixels: clamp both to a minimum of 4.0. -/
def setRectangleSizePixels (s : CanvasState) (w_px h_px : ℚ) : CanvasState :=
  { s with rect_width_px := max 4 w_px, rect_height_px := max 4 h_px }

/-- Method stopAnimation: stop the timer and clear the playing flag. -/
def stopAnimation (s : CanvasState) : CanvasState :=
  { s with timerActive := false, playing := false }

/-- Handler mousePressEvent: on a left press inside the raster, start a fresh
one-point path, enter drawing mode, reset the index, stop playback. -/
def mousePressEvent (s : CanvasState) (b : MButton) (p : Point) : CanvasState :=
  if hasImage s then
    if b = MButton.left ∧ point_in_image s p then
      { s with path_points := [p], drawing := true, drone_index := 0,
               playing := false, timerActive := false }
    else s
  else s

/-- Handler mouseMoveEvent: while drawing over a loaded raster, append in-bounds
points to the path. -/
def mouseMoveEvent (s : CanvasState) (p : Point) : CanvasState :=
  if s.drawing ∧ hasImage s then
    if point_in_image s p then { s with path_points := s.path_points ++ [p] }
    else s
  else s

/-- Handler mouseReleaseEvent: a left release ends drawing mode; anything else is
ignored. -/
def mouseReleaseEvent (s : CanvasState) (b : MButton) : CanvasState :=
  if b = MButton.left then { s with drawing := false } else s

/-- The index clamp `max(0, min(idx, len(path)-1))` used by `paintEvent` and
`_emit_crop` before reading the current point. -/
def clampIdx (idx : ℤ) (n : ℕ) : ℤ := max 0 (min idx ((n : ℤ) - 1))

/-- Reading `self.path_points[max(0, min(idx, len-1))]`: `none` models a
Python `IndexError`. -/
def pointAt (pts : List Point) (idx : ℤ) : Option Point :=
  pts.get? (clampIdx idx pts.length).toNat

/-- Result of `_emit_crop` and of a timer tick: a frame emitted through the
`cropUpdated` signal, no emission (an early return), or a raised exception
(modelled only for the list read, which the guards keep unreachable). -/
inductive EmitResult where
  | noEmit
  | emitted (f : Frame)
  | err

/-- The `_emit_crop` method: guard on raster and path, clamp the index, read
the center and heading, truncate the footprint to whole pixels, skip
degenerate sizes, otherwise run the sampling loop and emit the frame. It
reads but never writes the widget state. -/
def emit_crop (tm : TrigModel) (s : CanvasState) : EmitResult :=
  match s.image with
  | none => EmitResult.noEmit
  | some img =>
    if hasPath s then
      match pointAt s.path_points (s.drone_index : ℤ) with
      | none => EmitResult.err
      | some center =>
        let idx := (clampIdx (s.drone_index : ℤ) s.path_points.length).toNat
        let angle_deg := heading_angle_deg tm s.path_points idx
        let ct := tm.cosOfDeg angle_deg
        let sn := tm.sinOfDeg angle_deg
        let w := pytrunc s.rect_width_px
        let h := pytrunc s.rect_height_px
        if w < 2 ∨ h < 2 then EmitResult.noEmit
        else EmitResult.emitted (emitCropFrame img center.x center.y ct sn w.toNat h.toNat)
    else EmitResult.noEmit

/-- Method startAnimation: requires a raster and a path, resets the index, sets
playing, emits the first frame immediately, and starts the timer with the
interval coerced to at least 1 ms. -/
def startAnimation (tm : TrigModel) (s : CanvasState) (interval_ms : ℤ) :
    CanvasState × EmitResult :=
  if hasImage s ∧ hasPath s then
    let s2 := { s with drone_index := 0, playing := true }
    ({ s2 with timerActive := true, timerInterval := max 1 interval_ms },
      emit_crop tm s2)
  else (s, EmitResult.noEmit)

/-- The `_on_timer` tick: with no path, stop; before the last index,
advance and emit; at the last index, stop. -/
def on_timer (tm : TrigModel) (s : CanvasState) : CanvasState × EmitResult :=
  if hasPath s then
    if s.drone_index < s.path_points.length - 1 then
      let s2 := { s with drone_index := s.drone_index + 1 }
      (s2, emit_crop tm s2)
    else (stopAnimation s, EmitResult.noEmit)
  else (stopAnimation s, EmitResult.noEmit)

/-- States of the widget reachable through its public operations and event
handlers. -/
inductive Reachable (tm : TrigModel) : CanvasState → Prop where
  | init : Reachable tm initState
  | load (s : CanvasState) (img : Raster) :
      Reachable tm s → Reachable tm (setImage s img)
  | press (s : CanvasState) (b : MButton) (p : Point) :
      Reachable tm s → Reachable tm (mousePressEvent s b p)
  | move (s : CanvasState) (p : Point) :
      Reachable tm s → Reachable tm (mouseMoveEvent s p)
  | release (s : CanvasState) (b : MButton) :
      Reachable tm s → Reachable tm (mouseReleaseEvent s b)
  | setRect (s : CanvasState) (w_px h_px : ℚ) :
      Reachable tm s → Reachable tm (setRectangleSizePixels s w_px h_px)
  | animStart (s : CanvasState) (iv : ℤ) :
      Reachable tm s → Reachable tm (startAnimation tm s iv).1
  | animStop (s : CanvasState) :
      Reachable tm s → Reachable tm (stopAnimation s)
  | timerTick (s : CanvasState) :
      Reachable tm s → Reachable tm (on_timer tm s).1

/-- Invariant maintained by every public operation: the footprint dimensions
never drop below 4 pixels, and while playing the raster is loaded, the path
has at least two points, and the index is strictly inside the path. -/
def Inv (s : CanvasState) : Prop :=
  4 ≤ s.rect_width_px ∧ 4 ≤ s.rect_height_px ∧
  (s.playing = true →
    s.image.isSome = true ∧ 2 ≤ s.path_points.length ∧
    s.drone_index < s.path_points.length)

theorem clampIdx_nonneg (idx : ℤ) (n : ℕ) : 0 ≤ clampIdx idx n :=
  le_max_left 0 _

theorem clampIdx_lt (idx : ℤ) (n : ℕ) (h : 1 ≤ n) : clampIdx idx n < (n : ℤ) := by
  unfold clampIdx
  have h1 : min idx ((n : ℤ) - 1) ≤ (n : ℤ) - 1 := min_le_right _ _
  have h2 : (0 : ℤ) ≤ (n : ℤ) - 1 := by omega
  have h3 : max 0 (min idx ((n : ℤ) - 1)) ≤ (n : ℤ) - 1 := max_le h2 h1
  omega

theorem pointAt_isSome (pts : List Point) (idx : ℤ) (h : 1 ≤ pts.length) :
    ∃ p, pointAt pts idx = some p := by
  unfold pointAt
  have h0 := clampIdx_nonneg idx pts.length
  have h1 := clampIdx_lt idx pts.length h
  have h2 : (clampIdx idx pts.length).toNat < pts.length := by omega
  exact ⟨pts.get ⟨_, h2⟩, List.get?_eq_get h2⟩

theorem emit_crop_emitted (tm : TrigModel) (s : CanvasState)
    (himg : s.image.isSome = true) (hlen : 2 ≤ s.path_points.length)
    (hwd : 2 ≤ pytrunc s.rect_width_px) (hht : 2 ≤ pytrunc s.rect_height_px) :
    ∃ f, emit_crop tm s = EmitResult.emitted f := by
  obtain ⟨img, himg2⟩ := Option.isSome_iff_exists.mp himg
  obtain ⟨c, hc⟩ := pointAt_isSome s.path_points (s.drone_index : ℤ) (by omega)
  have hp : hasPath s = true := by
    simp only [hasPath, decide_eq_true_eq]
    omega
  unfold emit_crop
  rw [himg2]
  simp only [hp, if_true, hc]
  rw [if_neg (by omega)]
  exact ⟨_, rfl⟩

theorem reachable_inv (tm : TrigModel) (s : CanvasState) (h : Reachable tm s) :
    Inv s := by
  induction h with
  | init =>
      refine ⟨by simp only [initState]; norm_num, by simp only [initState]; norm_num, ?_⟩
      intro hpl
      simp [initState] at hpl
  | load s img hs ih =>
      obtain ⟨hw, hh, _⟩ := ih
      exact ⟨hw, hh, by intro hpl; simp [setImage] at hpl⟩
  | press s b p hs ih =>
      obtain ⟨hw, hh, hp⟩ := ih
      unfold mousePressEvent
      split
      · split
        · exact ⟨hw, hh, by intro hpl; simp at hpl⟩
        · exact ⟨hw, hh, hp⟩
      · exact ⟨hw, hh, hp⟩
  | move s p hs ih =>
      obtain ⟨hw, hh, hp⟩ := ih
      unfold mouseMoveEvent
      split
      · split
        · refine ⟨hw, hh, ?_⟩
          intro hpl
          obtain ⟨h1, h2, h3⟩ := hp hpl
          refine ⟨h1, ?_, ?_⟩
          · simp only [List.length_append, List.length_singleton]
            omega
          · simp only [List.length_append, List.length_singleton]
            omega
        · exact ⟨hw, hh, hp⟩
      · exact ⟨hw, hh, hp⟩
  | release s b hs ih =>
      obtain ⟨hw, hh, hp⟩ := ih
      unfold mouseReleaseEvent
      split
      · exact ⟨hw, hh, hp⟩
      · exact ⟨hw, hh, hp⟩
  | setRect s w_px h_px hs ih =>
      obtain ⟨hw, hh, hp⟩ := ih
      exact ⟨le_max_left 4 w_px, le_max_left 4 h_px, hp⟩
  | animStart s iv hs ih =>
      obtain ⟨hw, hh, hp⟩ := ih
      unfold startAnimation
      split
      · next hcond =>
          dsimp only
          refine ⟨hw, hh, ?_⟩
          intro _
          have hip : s.image.isSome = true := by
            have := hcond.1
            simpa [hasImage] using this
          have hpp : 1 < s.path_points.length := by
            have := hcond.2
            simpa [hasPath] using this
          refine ⟨hip, ?_, ?_⟩
          · show 2 ≤ s.path_points.length
            omega
          · show 0 < s.path_points.length
            omega
      · exact ⟨hw, hh, hp⟩
  | animStop s hs ih =>
      obtain ⟨hw, hh, _⟩ := ih
      exact ⟨hw, hh, by intro hpl; simp [stopAnimation] at hpl⟩
  | timerTick s hs ih =>
      obtain ⟨hw, hh, hp⟩ := ih
      unfold on_timer
      split
      · next hpath =>
          have hpp : 1 < s.path_points.length := by
            simpa [hasPath] using hpath
          split
          · next hlt =>
              dsimp only
              refine ⟨hw, hh, ?_⟩
              intro hpl
              obtain ⟨h1, h2, _⟩ := hp hpl
              refine ⟨h1, h2, ?_⟩
              show s.drone_index + 1 < s.path_points.length
              omega
          · exact ⟨hw, hh, by intro hpl; simp [stopAnimation] at hpl⟩
      · exact ⟨hw, hh, by intro hpl; simp [stopAnimation] at hpl⟩

theorem pytrunc_ge_four {r : ℚ} (h : 4 ≤ r) : 4 ≤ pytrunc r := by
  unfold pytrunc
  rw [if_pos (le_trans (by norm_num) h)]
  exact Int.le_floor.mpr (by push_cast; linarith)

/-- C6: in every reachable state of the widget, whenever the playing flag is
true the current index satisfies `drone_index < len(path)` (nonnegativity is
inherent in the type) and the path has at least two points: `startAnimation`
only sets playing with index 0 on a path of length at least 2, ticks never
push the index past `length - 1`, and replacing the path clears playing. -/
theorem playing_index_invariant (tm : TrigModel) (s : CanvasState)
    (hr : Reachable tm s) (hpl : s.playing = true) :
    s.drone_index < s.path_points.length ∧ 2 ≤ s.path_points.length := by
  obtain ⟨_, _, hp⟩ := reachable_inv tm s hr
  obtain ⟨_, h2, h3⟩ := hp hpl
  exact ⟨h3, h2⟩

/-- C2: in every reachable playing state over a path of length n >= 2, a
timer tick with current index strictly below n-1 increments the index by
exactly one (all other fields unchanged) and emits one sampled frame, while
a tick with current index equal to n-1 transitions to Stopped (timer halted,
playing flag false) without emitting and without an explicit stop call. -/
theorem on_timer_step (tm : TrigModel) (s : CanvasState) (hr : Reachable tm s)
    (hpl : s.playing = true) (hlen : 2 ≤ s.path_points.length) :
    (s.drone_index < s.path_points.length - 1 →
      (on_timer tm s).1 = { s with drone_index := s.drone_index + 1 } ∧
      ∃ f, (on_timer tm s).2 = EmitResult.emitted f) ∧
    (s.drone_index = s.path_points.length - 1 →
      (on_timer tm s).1 = { s with playing := false, timerActive := false } ∧
      (on_timer tm s).2 = EmitResult.noEmit) := by
  obtain ⟨hw, hh, hp⟩ := reachable_inv tm s hr
  obtain ⟨himg, _, _⟩ := hp hpl
  have hpath : hasPath s = true := by
    simp only [hasPath, decide_eq_true_eq]
    omega
  constructor
  · intro hlt
    unfold on_timer
    simp only [hpath, if_true]
    rw [if_pos hlt]
    refine ⟨rfl, ?_⟩
    apply emit_crop_emitted
    · exact himg
    · show 2 ≤ s.path_points.length
      exact hlen
    · show 2 ≤ pytrunc s.rect_width_px
      have := pytrunc_ge_four hw
      omega
    · show 2 ≤ pytrunc s.rect_height_px
      have := pytrunc_ge_four hh
      omega
  · intro heq
    unfold on_timer
    simp only [hpath, if_true]
    rw [if_neg (by omega)]
    exact ⟨rfl, rfl⟩

/-- C7: whenever either requested footprint dimension truncates to fewer
than 2 pixels, `_emit_crop` is a pure no-op: it emits no frame and raises no
error (and, being a read-only query of the state, modifies nothing). -/
theorem emit_crop_degenerate (tm : TrigModel) (s : CanvasState)
    (h : pytrunc s.rect_width_px < 2 ∨ pytrunc s.rect_height_px < 2) :
    emit_crop tm s = EmitResult.noEmit := by
  unfold emit_crop
  cases himg : s.image with
  | none => rfl
  | some img =>
    dsimp only
    by_cases hp : hasPath s = true
    · obtain ⟨c, hc⟩ := pointAt_isSome s.path_points (s.drone_index : ℤ) (by
        have : 1 < s.path_points.length := by simpa [hasPath] using hp
        omega)
      simp only [hp, if_true, hc]
      rw [if_pos h]
    · rw [if_neg hp]

/-- C8 amended: for every integer index and every nonempty path, the clamp
`max(0, min(idx, len-1))` lands in `[0, len-1]` and the point lookup
succeeds; the sampling routine guards all its path accesses with `hasPath`,
so it can never raise the modelled index error. (On an empty path the clamp
alone would not protect the lookup, hence the nonemptiness hypothesis.) -/
theorem pointAt_clamped_total :
    (∀ (pts : List Point) (idx : ℤ), 1 ≤ pts.length →
      0 ≤ clampIdx idx pts.length ∧ clampIdx idx pts.length < (pts.length : ℤ) ∧
        (pointAt pts idx).isSome = true) ∧
    (∀ (tm : TrigModel) (s : CanvasState), emit_crop tm s ≠ EmitResult.err) := by
  constructor
  · intro pts idx h
    obtain ⟨p, hp⟩ := pointAt_isSome pts idx h
    exact ⟨clampIdx_nonneg idx pts.length, clampIdx_lt idx pts.length h, by rw [hp]; rfl⟩
  · intro tm s
    unfold emit_crop
    cases himg : s.image with
    | none => simp
    | some img =>
      dsimp only
      by_cases hp : hasPath s = true
      · obtain ⟨c, hc⟩ := pointAt_isSome s.path_points (s.drone_index : ℤ) (by
          have : 1 < s.path_points.length := by simpa [hasPath] using hp
          omega)
        simp only [hp, if_true, hc]
        split
        · simp
        · simp
      · rw [if_neg hp]
        simp

/-- C8 counterexample: on the empty path the claimed universally-quantified
guarantee fails: the clamp sends index 5 to 0, which does not lie in the
(empty) range `[0, length-1]`, and the point lookup fails (`none`, a Python
`IndexError`). -/
theorem pointAt_empty_none :
    pointAt ([] : List Point) 5 = none ∧
    ¬(clampIdx 5 (List.length ([] : List Point)) ≤ (List.length ([] : List Point) : ℤ) - 1) := by
  constructor
  · rfl
  · decide

/-- C9: in every reachable state the truncated footprint dimensions are at
least 4 (they start at 80.0 and `setRectangleSizePixels` clamps to a minimum
of 4.0), so the degenerate-size skip branch of `_emit_crop` is unreachable
and every sampling call with a loaded raster and a path of length at least 2
produces a frame. -/
theorem reachable_rect_min_emit (tm : TrigModel) (s : CanvasState) (hr : Reachable tm s) :
    4 ≤ pytrunc s.rect_width_px ∧ 4 ≤ pytrunc s.rect_height_px ∧
    (s.image.isSome = true → 2 ≤ s.path_points.length →
      ∃ f, emit_crop tm s = EmitResult.emitted f) := by
  obtain ⟨hw, hh, _⟩ := reachable_inv tm s hr
  refine ⟨pytrunc_ge_four hw, pytrunc_ge_four hh,
    fun hi hl => emit_crop_emitted tm s hi hl ?_ ?_⟩
  · have := pytrunc_ge_four hw
    omega
  · have := pytrunc_ge_four hh
    omega

/-- C10: a mouse release ends drawing mode exactly when the released button
is the left one; a non-left release changes nothing at all, and a left
release changes no field other than the drawing flag. -/
theorem mouseRelease_spec (s : CanvasState) (b : MButton) :
    ((mouseReleaseEvent s b).drawing = false ↔ b = MButton.left ∨ s.drawing = false) ∧
    (mouseReleaseEvent s b).path_points = s.path_points ∧
    (mouseReleaseEvent s b).drone_index = s.drone_index ∧
    (mouseReleaseEvent s b).playing = s.playing ∧
    (mouseReleaseEvent s b).image = s.image ∧
    (mouseReleaseEvent s b).timerActive = s.timerActive ∧
    (mouseReleaseEvent s b).rect_width_px = s.rect_width_px ∧
    (mouseReleaseEvent s b).rect_height_px = s.rect_height_px ∧
    (b = MButton.left → mouseReleaseEvent s b = { s with drawing := false }) ∧
    (b ≠ MButton.left → mouseReleaseEvent s b = s) := by
  unfold mouseReleaseEvent
  by_cases hb : b = MButton.left
  · simp [hb]
  · simp [hb]

/-- A concrete 10 by 10 raster with distinguishable pixels. -/
def demoImg : Raster :=
  { width := 10, height := 10, pixel := fun x y => 1000 + 10 * x + y }

/-- A concrete reachable state: load `demoImg`, draw the two-point path
(1,1)-(2,2) with the mouse, release, then start playback at 100 ms. -/
def demoState : CanvasState :=
  (startAnimation tm0
    (mouseReleaseEvent
      (mouseMoveEvent
        (mousePressEvent (setImage initState demoImg) MButton.left ⟨1, 1⟩)
        ⟨2, 2⟩)
      MButton.left)
    100).1

theorem demoState_reachable : Reachable tm0 demoState :=
  Reachable.animStart _ 100
    (Reachable.release _ MButton.left
      (Reachable.move _ ⟨2, 2⟩
        (Reachable.press _ MButton.left ⟨1, 1⟩
          (Reachable.load _ demoImg Reachable.init))))

/-- The state one tick after `demoState`: index 1, the end of the path. -/
def demoState2 : CanvasState := (on_timer tm0 demoState).1

theorem demoState2_reachable : Reachable tm0 demoState2 :=
  Reachable.timerTick demoState demoState_reachable

/-- A state whose footprint width truncates below 2 pixels. -/
def demoSmall : CanvasState := { demoState with rect_width_px := 1 }

theorem emitCropFrame_pix_spec_witness :
    (emitCropFrame demoImg 0 0 1 0 2 2).pix 1 1 = demoImg.pixel 0 0 := by
  have H := (emitCropFrame_pix_spec demoImg 0 0 1 0 2 2 (by norm_num) (by norm_num)).2.2 1 1
    (by norm_num) (by norm_num)
  rw [H]
  norm_num [pyround, InB, demoImg]

theorem playing_index_invariant_witness :
    demoState.drone_index < demoState.path_points.length ∧
    2 ≤ demoState.path_points.length :=
  playing_index_invariant tm0 demoState demoState_reachable (by decide)

theorem on_timer_step_witness :
    ((on_timer tm0 demoState).1 = { demoState with drone_index := demoState.drone_index + 1 } ∧
      ∃ f, (on_timer tm0 demoState).2 = EmitResult.emitted f) ∧
    ((on_timer tm0 demoState2).1 = { demoState2 with playing := false, timerActive := false } ∧
      (on_timer tm0 demoState2).2 = EmitResult.noEmit) := by
  constructor
  · exact (on_timer_step tm0 demoState demoState_reachable (by decide) (by decide)).1 (by decide)
  · exact (on_timer_step tm0 demoState2 demoState2_reachable (by decide) (by decide)).2 (by decide)

theorem emit_crop_degenerate_witness :
    emit_crop tm0 demoSmall = EmitResult.noEmit :=
  emit_crop_degenerate tm0 demoSmall
    (Or.inl (by show pytrunc (1 : ℚ) < 2; unfold pytrunc; rw [if_pos (by norm_num)]; norm_num))

theorem pointAt_clamped_total_witness :
    (pointAt demoPath (-7)).isSome = true ∧ emit_crop tm0 demoState ≠ EmitResult.err := by
  constructor
  · exact (pointAt_clamped_total.1 demoPath (-7) (by decide)).2.2
  · exact pointAt_clamped_total.2 tm0 demoState

theorem reachable_rect_min_emit_witness :
    ∃ f, emit_crop tm0 demoState = EmitResult.emitted f :=
  (reachable_rect_min_emit tm0 demoState demoState_reachable).2.2 (by decide) (by decide)

theorem mouseRelease_spec_witness :
    mouseReleaseEvent initState MButton.right = initState ∧
    mouseReleaseEvent demoState MButton.left = { demoState with drawing := false } := by
  constructor
  · exact (mouseRelease_spec initState MButton.right).2.2.2.2.2.2.2.2.2 (by decide)
  · exact (mouseRelease_spec demoState MButton.left).2.2.2.2.2.2.2.2.1 rfl

end DroneSim
